import Mathlib

/-!
Verification development for the SmartRetry repository.

The TypeScript sources are shallowly embedded:
* loosely typed JavaScript error values become the inductive `JsVal`;
* JavaScript double arithmetic in the backoff calculator becomes exact
  rational arithmetic together with an explicit non-finite value (`JSNum`)
  that appears once a magnitude exceeds the largest finite double;
* the asynchronous orchestrator `smartRetry` becomes a recursive function
  over an explicit environment (virtual wall clock, per-attempt outcomes and
  durations, abort time of the signal, stream of random draws) that returns
  the terminal result together with a trace of observable events.
-/

namespace SmartRetry

/-! ## JavaScript value model -/

/-- Model of a loosely typed JavaScript value, as inspected by the
retryability classifiers.  `vnum q` is a number; `Number.isInteger` holds
exactly when the rational is integral (denominator 1). -/
inductive JsVal : Type where
  | vundef : JsVal
  | vnull : JsVal
  | vbool : Bool → JsVal
  | vnum : ℚ → JsVal
  | vstr : String → JsVal
  | vobj : List (String × JsVal) → JsVal

/-- First binding of a key in an object field list, mirroring property
lookup on a plain object. -/
def lookupField : List (String × JsVal) → String → Option JsVal
  | [], _ => none
  | (k, v) :: rest, key => if k = key then some v else lookupField rest key

/-! ## Classifier (src/src/index.ts and src/unnamed/part_001) -/

/-- The fixed set of retryable network error codes from the source
(`RETRYABLE_NETWORK_CODES`). -/
def RETRYABLE_NETWORK_CODES : List String :=
  ["ECONNRESET", "ETIMEDOUT", "ENOTFOUND", "EAI_AGAIN"]

/-- Embedding of `isNetworkError`: true exactly when the error is an object
whose `code` property is a string in the fixed retryable set. -/
def isNetworkError : JsVal → Bool
  | .vobj fs =>
    match lookupField fs "code" with
    | some (.vstr s) => RETRYABLE_NETWORK_CODES.contains s
    | _ => false
  | _ => false

/-- Helper for `extractHttpStatus`: an integer-number `status` property of a
field list, if present.  Non-number or non-integer statuses yield `none`,
matching the guarded `typeof`/`Number.isInteger` checks in the source. -/
def statusOfFields (fs : List (String × JsVal)) : Option ℤ :=
  match lookupField fs "status" with
  | some (.vnum q) => if q.den = 1 then some q.num else none
  | _ => none

/-- Embedding of `extractHttpStatus`: reads `error.status` first, then falls
back to `error.response.status` when `response` is an object. -/
def extractHttpStatus : JsVal → Option ℤ
  | .vobj fs =>
    match statusOfFields fs with
    | some n => some n
    | none =>
      match lookupField fs "response" with
      | some (.vobj rfs) => statusOfFields rfs
      | _ => none
  | _ => none

/-- Embedding of the exported `isRetryableHttpError`: true for status 429
and statuses 500 through 599, false otherwise (also when no status is
found). -/
def isRetryableHttpError (e : JsVal) : Bool :=
  match extractHttpStatus e with
  | none => false
  | some s =>
    if s = 429 then true
    else if 500 ≤ s ∧ s ≤ 599 then true
    else false

/-- Embedding of `defaultRetryPolicy`: network errors retry; then by HTTP
status 429 and 5xx retry while 4xx (other than 429) does not; errors without
a recognized status retry by default. -/
def defaultRetryPolicy (e : JsVal) : Bool :=
  if isNetworkError e then true
  else
    match extractHttpStatus e with
    | some s =>
      if s = 429 then true
      else if 500 ≤ s ∧ s ≤ 599 then true
      else if 400 ≤ s ∧ s ≤ 499 then false
      else true
    | none => true

/-! ## Backoff calculator (src/unnamed/part_001) -/

/-- Largest finite IEEE-754 double `Number.MAX_VALUE`, as a natural number
literal; `MAXVn_eq` below identifies it with `2 ^ 1024 - 2 ^ 971`, that is
`(2 - 2 ^ (-52)) * 2 ^ 1023`. -/
def MAXVn : ℕ := 179769313486231570814527423731704356798070567525844996598917476803157260780028538760589558632766878171540458953514382464234321326889464182768467546703537516986049910576551282076245490090389328944075868508455133942304583236903222948165808559332123348274797826204144723168738177180919299881250404026184124858368

/-- Largest finite double as an exact rational. -/
def MAXV : ℚ := (MAXVn : ℚ)

/-- A JavaScript number in the backoff calculation: either a finite value
(exact rational) or the non-finite overflow value.  With a positive base the
only non-finite value that can arise is positive infinity, modeled by
`inf`. -/
inductive JSNum : Type where
  | fin : ℚ → JSNum
  | inf : JSNum

/-- `Math.pow(2, n)` for a natural exponent: the exact power while it is a
representable double, non-finite once it exceeds the largest finite double.
Since `2 ^ 1023 ≤ MAXV < 2 ^ 1024`, the power of two overflows exactly when
`1023 < n`; the lemma `jsPow2_finite_iff` checks this against `MAXV`. -/
def jsPow2 (n : ℕ) : JSNum :=
  if n ≤ 1023 then .fin ((2 ^ n : ℕ) : ℚ) else .inf

/-- Double multiplication of a finite nonnegative base with the exponential
term: overflows to the non-finite value when the product leaves the finite
double range. -/
def jsMulPos (b : ℚ) : JSNum → JSNum
  | .fin q => if b * q ≤ MAXV then .fin (b * q) else .inf
  | .inf => .inf

/-- `Number.isFinite` on the model. -/
def jsIsFinite : JSNum → Bool
  | .fin _ => true
  | .inf => false

/-- Embedding of `calculateBackoffDelay`: compute `baseDelayMs * 2 ^ attempt`
in double arithmetic; if the product is not finite return `maxDelayMs`,
otherwise return `min maxDelayMs product`. -/
def calculateBackoffDelay (attempt : ℕ) (baseDelayMs maxDelayMs : ℚ) : ℚ :=
  match jsMulPos baseDelayMs (jsPow2 attempt) with
  | .inf => maxDelayMs
  | .fin d => min maxDelayMs d

/-- Embedding of `applyJitter`: the draw `r` is the value of `Math.random()`
for this call, so the jittered delay is `r * delay`. -/
def applyJitter (r delay : ℚ) : ℚ := r * delay

/-! ## Orchestrator (src/src/smartRetry.ts)

Time is a virtual wall clock of type `ℚ` (milliseconds).  Synchronous code
takes no time; the clock advances only while awaiting the wrapped operation
or the cancellable timer, by amounts supplied by the environment.  The
`AbortSignal` is modeled by the instant at which it fires (if ever) plus its
reason, and the `sleep` helper by a time advance that an abort firing before
the timer interrupts. -/

/-- Model of an `AbortSignal`: the instant at which `abort` is called, if
ever, and the value of `signal.reason`. -/
structure SigModel : Type where
  abortAt : Option ℚ
  reason : Option JsVal

/-- Whether an optional signal is in the aborted state at instant `t`. -/
def sigAborted (s : Option SigModel) (t : ℚ) : Bool :=
  match s with
  | none => false
  | some sg =>
    match sg.abortAt with
    | none => false
    | some a => decide (a ≤ t)

/-- The `reason` carried by an optional signal. -/
def sigReason (s : Option SigModel) : Option JsVal :=
  s.bind fun sg => sg.reason

/-- The abort instant of an optional signal, if any. -/
def sigAbortTime (s : Option SigModel) : Option ℚ :=
  s.bind fun sg => sg.abortAt

/-- A signal that never fires (this includes the absent signal). -/
def sigNeverAborts (s : Option SigModel) : Prop :=
  sigAbortTime s = none

/-- Interruption of a sleep of duration `d` started at instant `t`: the
abort instant, when the signal fires strictly before the timer completes. -/
def abortDuring (s : Option SigModel) (t d : ℚ) : Option ℚ :=
  match s with
  | none => none
  | some sg =>
    match sg.abortAt with
    | none => none
    | some a => if a < t + d then some a else none

/-- Embedding of the `RetryOptions` interface: every field optional, with
`none` meaning the caller omitted it.  The `onRetry` hook is modeled by its
presence; its invocations are recorded in the event trace. -/
structure RetryOptions : Type where
  maxRetries : Option ℤ := none
  baseDelayMs : Option ℚ := none
  maxDelayMs : Option ℚ := none
  jitter : Option Bool := none
  retryOn : Option (JsVal → ℕ → Bool) := none
  onRetry : Bool := false
  timeoutMs : Option ℚ := none
  signal : Option SigModel := none

/-- The four distinct validation failures thrown by `validateOptions`, one
per violated constraint. -/
inductive ConfigError : Type where
  | negMaxRetries
  | nonPosBaseDelay
  | maxBelowBase
  | nonPosTimeout
deriving DecidableEq

/-- Embedding of `validateOptions`, checking the four constraints in source
order; `maxDelayMs` is compared against the effective base delay
(`baseDelayMs ?? 300`). -/
def validateOptions (o : RetryOptions) : Option ConfigError :=
  if o.maxRetries.any fun m => decide (m < 0) then some .negMaxRetries
  else if o.baseDelayMs.any fun b => decide (b ≤ 0) then some .nonPosBaseDelay
  else if o.maxDelayMs.any fun m => decide (m < o.baseDelayMs.getD 300) then
    some .maxBelowBase
  else if o.timeoutMs.any fun t => decide (t ≤ 0) then some .nonPosTimeout
  else none

/-- The `DEFAULTS` constant of the source. -/
structure DefaultsT : Type where
  maxRetries : ℤ
  baseDelayMs : ℚ
  maxDelayMs : ℚ
  jitter : Bool

/-- Default option values (`maxRetries` 3, `baseDelayMs` 300, `maxDelayMs`
5000, `jitter` true). -/
def DEFAULTS : DefaultsT :=
  { maxRetries := 3, baseDelayMs := 300, maxDelayMs := 5000, jitter := true }

/-- The effective retry budget `maxRetries ?? DEFAULTS.maxRetries`, as a
natural number (validation guarantees nonnegativity). -/
def effMaxRetries (o : RetryOptions) : ℕ :=
  (o.maxRetries.getD DEFAULTS.maxRetries).toNat

/-- Effective configuration assembled by `smartRetry` after validation. -/
structure LoopCfg : Type where
  maxRetries : ℕ
  baseDelayMs : ℚ
  maxDelayMs : ℚ
  jitter : Bool
  retryOn : JsVal → ℕ → Bool
  onRetry : Bool
  timeoutMs : Option ℚ
  signal : Option SigModel
  start : ℚ

/-- Resolution of option defaults, mirroring the `??` chain at the top of
`smartRetry`; `start` is the `Date.now()` captured at entry. -/
def mkCfg (o : RetryOptions) (start : ℚ) : LoopCfg :=
  { maxRetries := effMaxRetries o
    baseDelayMs := o.baseDelayMs.getD DEFAULTS.baseDelayMs
    maxDelayMs := o.maxDelayMs.getD DEFAULTS.maxDelayMs
    jitter := o.jitter.getD DEFAULTS.jitter
    retryOn := o.retryOn.getD fun e _ => defaultRetryPolicy e
    onRetry := o.onRetry
    timeoutMs := o.timeoutMs
    signal := o.signal
    start := start }

/-- Behavior of the wrapped operation and of the ambient world during one
invocation: entry instant, outcome and duration of each attempt, and the
stream of `Math.random()` draws. -/
structure Env (α : Type) : Type where
  start : ℚ
  runs : ℕ → Except JsVal α
  durs : ℕ → ℚ
  rand : ℕ → ℚ

/-- Observable events of one invocation, in order: operation calls with
their attempt index, classifier consultations with the verdict, backoff
computations, `onRetry` hook calls (upcoming attempt index and final
delay), and sleeps (start instant, pre-clamp delay, final delay). -/
inductive Event : Type where
  | call (attempt : ℕ)
  | policyCheck (attempt : ℕ) (verdict : Bool)
  | delayComputed (attempt : ℕ) (delay : ℚ)
  | hook (upcomingAttempt : ℕ) (delay : ℚ)
  | slept (startAt : ℚ) (preClamp : ℚ) (finalDelay : ℚ)
deriving DecidableEq

/-- Terminal outcome of one invocation.  `rethrown` is the policy-rejection
path: it carries the original error value itself and no metadata.  The three
wrapped failures carry `totalAttempts` and `totalElapsedMs`. -/
inductive RetryResult (α : Type) : Type where
  | ok (v : α)
  | configError (c : ConfigError)
  | rethrown (e : JsVal)
  | timedOut (totalAttempts : ℕ) (totalElapsedMs : ℚ) (cause : Option JsVal)
  | aborted (totalAttempts : ℕ) (totalElapsedMs : ℚ) (reason : Option JsVal)
  | exhausted (totalAttempts : ℕ) (totalElapsedMs : ℚ) (cause : Option JsVal)

/-- The pre-attempt and pre-sleep timeout test `elapsed >= timeoutMs`. -/
def preTimeout (cfg : LoopCfg) (now : ℚ) : Bool :=
  match cfg.timeoutMs with
  | none => false
  | some T => decide (T ≤ now - cfg.start)

/-- Clamping of the computed delay to the remaining budget: `none` when the
remaining budget is already exhausted (the loop then throws `TimeoutError`
instead of sleeping), otherwise the delay clamped to the remaining time. -/
def clampDelay (cfg : LoopCfg) (now : ℚ) (d : ℚ) : Option ℚ :=
  match cfg.timeoutMs with
  | none => some d
  | some T =>
    if T - (now - cfg.start) ≤ 0 then none
    else some (min d (T - (now - cfg.start)))

/-- The body of the `catch` branch of the loop for a failure of a non-final
attempt, starting at the classifier consultation (source lines 143 to 208):
either a terminal outcome with its events (`Sum.inl`), or the events, next
instant and next random index with which the loop continues (`Sum.inr`).
`now2` is the instant at which the failed call returned. -/
def afterFail {α : Type} (cfg : LoopCfg) (env : Env α) (attempt : ℕ)
    (e : JsVal) (now2 : ℚ) (rIdx : ℕ) :
    (RetryResult α × List Event) ⊕ (List Event × ℚ × ℕ) :=
  let verdict := cfg.retryOn e attempt
  if verdict = false then
    .inl (.rethrown e, [.policyCheck attempt verdict])
  else if preTimeout cfg now2 then
    .inl (.timedOut (attempt + 1) (now2 - cfg.start) (some e),
      [.policyCheck attempt verdict])
  else if sigAborted cfg.signal now2 then
    .inl (.aborted (attempt + 1) (now2 - cfg.start) (sigReason cfg.signal),
      [.policyCheck attempt verdict])
  else
    let d0 := calculateBackoffDelay attempt cfg.baseDelayMs cfg.maxDelayMs
    let d1 := if cfg.jitter then applyJitter (env.rand rIdx) d0 else d0
    let rIdx2 := if cfg.jitter then rIdx + 1 else rIdx
    match clampDelay cfg now2 d1 with
    | none =>
      .inl (.timedOut (attempt + 1) (now2 - cfg.start) (some e),
        [.policyCheck attempt verdict, .delayComputed attempt d0])
    | some d2 =>
      let evs := [Event.policyCheck attempt verdict,
          .delayComputed attempt d0]
        ++ (if cfg.onRetry then [Event.hook (attempt + 1) d2] else [])
        ++ [Event.slept now2 d1 d2]
      match abortDuring cfg.signal now2 d2 with
      | some a =>
        .inl (.aborted (attempt + 1) (a - cfg.start) (sigReason cfg.signal),
          evs)
      | none => .inr (evs, now2 + d2, rIdx2)

/-- The retry loop of `smartRetry`.  `left` is the number of retries still
permitted, so the source guard `attempt >= maxRetries` is `left = 0`; the
top-level call passes `attempt = 0` and `left = maxRetries`.  Returns the
terminal result together with the trace of events from this point on. -/
def retryLoop {α : Type} (cfg : LoopCfg) (env : Env α) :
    ℕ → ℕ → Option JsVal → ℚ → ℕ → RetryResult α × List Event
  | left, attempt, lastErr, now, rIdx =>
    if preTimeout cfg now then
      (.timedOut attempt (now - cfg.start) lastErr, [])
    else if sigAborted cfg.signal now then
      (.aborted attempt (now - cfg.start) (sigReason cfg.signal), [])
    else
      match env.runs attempt with
      | .ok v => (.ok v, [.call attempt])
      | .error e =>
        match left with
        | 0 =>
          (.exhausted (cfg.maxRetries + 1) (now + env.durs attempt - cfg.start)
            (some e), [.call attempt])
        | left' + 1 =>
          match afterFail cfg env attempt e (now + env.durs attempt) rIdx with
          | .inl (res, evs) => (res, .call attempt :: evs)
          | .inr (evs, nextNow, rIdx2) =>
            let r := retryLoop cfg env left' (attempt + 1) (some e) nextNow
              rIdx2
            (r.1, .call attempt :: (evs ++ r.2))

/-- Embedding of `smartRetry`: validate, capture the start instant, shortcut
when the signal is already aborted (zero attempts, zero elapsed time), then
run the loop. -/
def smartRetry {α : Type} (o : RetryOptions) (env : Env α) :
    RetryResult α × List Event :=
  match validateOptions o with
  | some c => (.configError c, [])
  | none =>
    if sigAborted o.signal env.start then
      (.aborted 0 0 (sigReason o.signal), [])
    else
      retryLoop (mkCfg o env.start) env (effMaxRetries o) 0 none env.start 0

/-- Attempt indices of the operation calls recorded in a trace. -/
def callsOf (tr : List Event) : List ℕ :=
  tr.filterMap fun ev =>
    match ev with
    | .call i => some i
    | _ => none

/-- Number of operation invocations recorded in a trace. -/
def countCalls (tr : List Event) : ℕ := (callsOf tr).length

/-- The `totalAttempts` metadata of a wrapped terminal failure, `none` for
success, validation errors and policy rejections. -/
def terminalAttempts {α : Type} : RetryResult α → Option ℕ
  | .timedOut n _ _ => some n
  | .aborted n _ _ => some n
  | .exhausted n _ _ => some n
  | _ => none

/-- A configuration violating one of the four documented constraints:
`maxRetries >= 0`, `baseDelayMs > 0`, `maxDelayMs >= baseDelayMs` (against
the effective base delay) and `timeoutMs > 0` when provided. -/
def violatesOpts (o : RetryOptions) : Prop :=
  (∃ m, o.maxRetries = some m ∧ m < 0)
  ∨ (∃ b, o.baseDelayMs = some b ∧ b ≤ 0)
  ∨ (∃ M, o.maxDelayMs = some M ∧ M < o.baseDelayMs.getD 300)
  ∨ (∃ T, o.timeoutMs = some T ∧ T ≤ 0)

/-! ### Concrete inputs used to exercise the definitions -/

/-- An environment whose operation always fails with the string error
`"e"`, with a virtual clock starting at 0 and instantaneous attempts. -/
def envFailE : Env Unit := { start := 0, runs := fun _ => .error (.vstr "e"), durs := fun _ => 0, rand := fun _ => 0 }

/-- An environment whose operation always fails with the string error
`"boom"`. -/
def envFailBoom : Env Unit := { start := 0, runs := fun _ => .error (.vstr "boom"), durs := fun _ => 0, rand := fun _ => 0 }

/-- An environment whose operation always fails with the string error
`"x"`. -/
def envFailX : Env Unit := { start := 0, runs := fun _ => .error (.vstr "x"), durs := fun _ => 0, rand := fun _ => 0 }

/-- Options with a retry budget of 2 and everything else defaulted. -/
def optsN2 : RetryOptions := { maxRetries := some 2 }

/-- Options with a retry budget of 0 and an always-false classifier. -/
def optsRejectN0 : RetryOptions := { maxRetries := some 0, retryOn := some fun _ _ => false }

/-- Options with an always-false classifier and the default retry
budget. -/
def optsReject : RetryOptions := { retryOn := some fun _ _ => false }

/-- Options with one retry, no jitter, an always-true classifier and a
timeout budget of 1000 ms. -/
def optsTimeout1000 : RetryOptions := { maxRetries := some 1, jitter := some false, retryOn := some fun _ _ => true, timeoutMs := some 1000 }

/-- Options with a retry budget of 0 and everything else defaulted. -/
def optsN0 : RetryOptions := { maxRetries := some 0 }

/-- Options with a negative retry budget. -/
def optsNegRetries : RetryOptions := { maxRetries := some (-1) }

/-- Options supplying only `maxDelayMs = 100`, below the default base
delay. -/
def optsSmallMaxDelay : RetryOptions := { maxDelayMs := some 100 }

/-! ## Lemmas about the double model -/

/-- The literal `MAXVn` is the largest finite double `2 ^ 1024 - 2 ^ 971`. -/
theorem MAXVn_eq : MAXVn = 2 ^ 1024 - 2 ^ 971 := by norm_num [MAXVn]

/-- The branch condition of `jsPow2` is exactly finiteness of the power of
two as a double: `2 ^ n` stays at or below `MAXV` precisely when
`n ≤ 1023`. -/
theorem jsPow2_finite_iff (n : ℕ) : n ≤ 1023 ↔ (2 : ℚ) ^ n ≤ MAXV := by
  rw [MAXV, MAXVn_eq]
  rw [show ((2 : ℚ) ^ n) = ((2 ^ n : ℕ) : ℚ) by push_cast; ring]
  rw [Nat.cast_le]
  constructor
  · intro h
    calc 2 ^ n ≤ 2 ^ 1023 := Nat.pow_le_pow_right (by norm_num) h
    _ ≤ 2 ^ 1024 - 2 ^ 971 := by norm_num
  · intro h
    by_contra hc
    push_neg at hc
    have h2 : (2 : ℕ) ^ 1024 ≤ 2 ^ n := Nat.pow_le_pow_right (by norm_num) hc
    have hlt : (2 : ℕ) ^ 1024 - 2 ^ 971 < 2 ^ 1024 :=
      Nat.sub_lt (by positivity) (by positivity)
    exact absurd (lt_of_le_of_lt (le_trans h2 h) hlt) (lt_irrefl _)

/-! ## Basic lemmas about the orchestrator model -/

/-- Without a timeout budget the pre-attempt and pre-sleep timeout test is
never taken. -/
theorem preTimeout_of_none (cfg : LoopCfg) (now : ℚ)
    (h : cfg.timeoutMs = none) : preTimeout cfg now = false := by
  simp [preTimeout, h]

/-- A signal that never fires is never in the aborted state. -/
theorem sigAborted_of_never (s : Option SigModel) (t : ℚ)
    (h : sigNeverAborts s) : sigAborted s t = false := by
  cases s with
  | none => rfl
  | some sg =>
    cases hab : sg.abortAt with
    | none => simp [sigAborted, hab]
    | some a => simp [sigNeverAborts, sigAbortTime, Option.bind, hab] at h

/-- A signal that never fires never interrupts a sleep. -/
theorem abortDuring_of_never (s : Option SigModel) (t d : ℚ)
    (h : sigNeverAborts s) : abortDuring s t d = none := by
  cases s with
  | none => rfl
  | some sg =>
    cases hab : sg.abortAt with
    | none => simp [abortDuring, hab]
    | some a => simp [sigNeverAborts, sigAbortTime, Option.bind, hab] at h

/-- Without a timeout budget the delay is never clamped. -/
theorem clampDelay_of_none (cfg : LoopCfg) (now d : ℚ)
    (h : cfg.timeoutMs = none) : clampDelay cfg now d = some d := by
  simp [clampDelay, h]

/-- A validated configuration has a positive timeout budget whenever one is
set. -/
theorem validateOptions_timeoutMs_pos (o : RetryOptions) (T : ℚ)
    (hv : validateOptions o = none) (hT : o.timeoutMs = some T) : 0 < T := by
  by_contra hc
  push_neg at hc
  unfold validateOptions at hv
  rw [hT] at hv
  split at hv
  · exact Option.noConfusion hv
  · split at hv
    · exact Option.noConfusion hv
    · split at hv
      · exact Option.noConfusion hv
      · rw [if_pos (by simpa [Option.any] using hc)] at hv
        exact Option.noConfusion hv

/-- At the entry instant the timeout test of a validated configuration is
not taken (no time has elapsed yet and the budget is positive). -/
theorem preTimeout_entry (o : RetryOptions) (t : ℚ)
    (hv : validateOptions o = none) : preTimeout (mkCfg o t) t = false := by
  unfold preTimeout mkCfg
  cases hT : o.timeoutMs with
  | none => simp
  | some T =>
    have hpos := validateOptions_timeoutMs_pos o T hv hT
    simp only [hT, sub_self, decide_eq_false_iff_not, not_le]
    exact hpos

/-- `effMaxRetries` at an explicitly supplied natural budget. -/
theorem effMaxRetries_some (o : RetryOptions) (N : ℕ)
    (h : o.maxRetries = some (N : ℤ)) : effMaxRetries o = N := by
  simp [effMaxRetries, h]

/-- `callsOf` distributes over append. -/
theorem callsOf_append (a b : List Event) :
    callsOf (a ++ b) = callsOf a ++ callsOf b := by
  simp [callsOf, List.filterMap_append]

/-- Timeout budget of the effective configuration. -/
theorem mkCfg_timeoutMs (o : RetryOptions) (t : ℚ) :
    (mkCfg o t).timeoutMs = o.timeoutMs := rfl

/-- Signal of the effective configuration. -/
theorem mkCfg_signal (o : RetryOptions) (t : ℚ) :
    (mkCfg o t).signal = o.signal := rfl

/-- Retry budget of the effective configuration. -/
theorem mkCfg_maxRetries (o : RetryOptions) (t : ℚ) :
    (mkCfg o t).maxRetries = effMaxRetries o := rfl

/-- Classifier of the effective configuration. -/
theorem mkCfg_retryOn (o : RetryOptions) (t : ℚ) :
    (mkCfg o t).retryOn = o.retryOn.getD (fun e _ => defaultRetryPolicy e) :=
  rfl

/-- Start instant of the effective configuration. -/
theorem mkCfg_start (o : RetryOptions) (t : ℚ) : (mkCfg o t).start = t := rfl

/-- When validation passes and the signal is not yet aborted, `smartRetry`
is the loop started at attempt 0 with the full retry budget. -/
theorem smartRetry_loop {α : Type} (o : RetryOptions) (env : Env α)
    (hval : validateOptions o = none)
    (hs : sigAborted o.signal env.start = false) :
    smartRetry o env =
      retryLoop (mkCfg o env.start) env (effMaxRetries o) 0 none env.start 0 := by
  unfold smartRetry
  simp only [hval, hs, Bool.false_eq_true, if_false]

/-- `Option.any` of a decided predicate holds exactly on a witnessing
`some`. -/
theorem optAny_true_iff {β : Type} (p : β → Prop) [DecidablePred p]
    (x : Option β) :
    (x.any fun b => decide (p b)) = true ↔ ∃ b, x = some b ∧ p b := by
  cases x <;> simp [Option.any]

/-- `Option.any` of a decided predicate fails exactly when no `some`
witnesses it. -/
theorem optAny_false_iff {β : Type} (p : β → Prop) [DecidablePred p]
    (x : Option β) :
    (x.any fun b => decide (p b)) = false ↔ ∀ b, x = some b → ¬ p b := by
  cases x <;> simp [Option.any]

/-- `callsOf` on a cons cell headed by a call event. -/
theorem callsOf_cons_call (i : ℕ) (tr : List Event) :
    callsOf (.call i :: tr) = i :: callsOf tr := rfl

/-- Structure of the event list of either outcome of `afterFail`: no
operation call is recorded, every classifier consultation carries the index
of the attempt that just failed, and when a timeout budget is set every
recorded sleep was clamped to a positive remaining budget. -/
theorem afterFail_events {α : Type} (cfg : LoopCfg) (env : Env α)
    (attempt : ℕ) (e : JsVal) (now2 : ℚ) (rIdx : ℕ) (evs : List Event)
    (h : (∃ res, afterFail cfg env attempt e now2 rIdx = Sum.inl (res, evs))
      ∨ ∃ nx ri, afterFail cfg env attempt e now2 rIdx = Sum.inr (evs, nx, ri)) :
    callsOf evs = []
    ∧ (∀ i b, Event.policyCheck i b ∈ evs → i = attempt)
    ∧ (∀ T, cfg.timeoutMs = some T → ∀ t p f, Event.slept t p f ∈ evs →
        f = min p (T - (t - cfg.start)) ∧ 0 < T - (t - cfg.start)) := by
  have small : ∀ evs2 : List Event,
      evs2 = [Event.policyCheck attempt (cfg.retryOn e attempt)]
      ∨ evs2 = [Event.policyCheck attempt (cfg.retryOn e attempt),
          .delayComputed attempt
            (calculateBackoffDelay attempt cfg.baseDelayMs cfg.maxDelayMs)] →
      callsOf evs2 = []
      ∧ (∀ i b, Event.policyCheck i b ∈ evs2 → i = attempt)
      ∧ (∀ T, cfg.timeoutMs = some T → ∀ t p f, Event.slept t p f ∈ evs2 →
          f = min p (T - (t - cfg.start)) ∧ 0 < T - (t - cfg.start)) := by
    rintro evs2 (rfl | rfl)
    · refine ⟨rfl, ?_, ?_⟩
      · intro i b hm
        simp at hm
        exact hm.1
      · intro T hT t p f hm
        simp at hm
    · refine ⟨rfl, ?_, ?_⟩
      · intro i b hm
        simp at hm
        exact hm.1
      · intro T hT t p f hm
        simp at hm
  have big : ∀ d2 : ℚ,
      clampDelay cfg now2
        (if cfg.jitter then
          applyJitter (env.rand rIdx)
            (calculateBackoffDelay attempt cfg.baseDelayMs cfg.maxDelayMs)
        else calculateBackoffDelay attempt cfg.baseDelayMs cfg.maxDelayMs)
        = some d2 →
      ∀ evs2 : List Event,
      evs2 = [Event.policyCheck attempt (cfg.retryOn e attempt),
          .delayComputed attempt
            (calculateBackoffDelay attempt cfg.baseDelayMs cfg.maxDelayMs)]
        ++ (if cfg.onRetry then [Event.hook (attempt + 1) d2] else [])
        ++ [Event.slept now2
            (if cfg.jitter then
              applyJitter (env.rand rIdx)
                (calculateBackoffDelay attempt cfg.baseDelayMs cfg.maxDelayMs)
            else calculateBackoffDelay attempt cfg.baseDelayMs cfg.maxDelayMs)
            d2] →
      callsOf evs2 = []
      ∧ (∀ i b, Event.policyCheck i b ∈ evs2 → i = attempt)
      ∧ (∀ T, cfg.timeoutMs = some T → ∀ t p f, Event.slept t p f ∈ evs2 →
          f = min p (T - (t - cfg.start)) ∧ 0 < T - (t - cfg.start)) := by
    rintro d2 hclamp evs2 rfl
    refine ⟨?_, ?_, ?_⟩
    · cases hj : cfg.onRetry <;> simp [callsOf, hj]
    · intro i b hm
      cases hj : cfg.onRetry <;> rw [hj] at hm <;> simp at hm <;> exact hm.1
    · intro T hT t p f hm
      have hm2 : t = now2
          ∧ p = (if cfg.jitter then
              applyJitter (env.rand rIdx)
                (calculateBackoffDelay attempt cfg.baseDelayMs cfg.maxDelayMs)
            else calculateBackoffDelay attempt cfg.baseDelayMs cfg.maxDelayMs)
          ∧ f = d2 := by
        cases hj : cfg.onRetry <;> rw [hj] at hm <;> simpa using hm
      obtain ⟨rfl, rfl, rfl⟩ := hm2
      simp only [clampDelay, hT] at hclamp
      split at hclamp
      · exact Option.noConfusion hclamp
      · rename_i hrem
        refine ⟨((Option.some.injEq _ _).mp hclamp).symm, not_le.mp hrem⟩
  rcases h with ⟨res, h⟩ | ⟨nx, ri, h⟩
  · simp only [afterFail] at h
    split at h
    · simp only [Sum.inl.injEq, Prod.mk.injEq] at h
      exact small evs (Or.inl h.2.symm)
    · split at h
      · simp only [Sum.inl.injEq, Prod.mk.injEq] at h
        exact small evs (Or.inl h.2.symm)
      · split at h
        · simp only [Sum.inl.injEq, Prod.mk.injEq] at h
          exact small evs (Or.inl h.2.symm)
        · split at h
          · simp only [Sum.inl.injEq, Prod.mk.injEq] at h
            exact small evs (Or.inr h.2.symm)
          · rename_i d2 hclamp
            split at h
            · simp only [Sum.inl.injEq, Prod.mk.injEq] at h
              exact big d2 hclamp evs h.2.symm
            · exact Sum.noConfusion h
  · simp only [afterFail] at h
    split at h
    · exact Sum.noConfusion h
    · split at h
      · exact Sum.noConfusion h
      · split at h
        · exact Sum.noConfusion h
        · split at h
          · exact Sum.noConfusion h
          · rename_i d2 hclamp
            split at h
            · exact Sum.noConfusion h
            · simp only [Sum.inr.injEq, Prod.mk.injEq] at h
              exact big d2 hclamp evs h.1.symm

/-- A terminal outcome of `afterFail` that carries attempt metadata carries
exactly `attempt + 1`: the attempt that just failed was the
`attempt + 1`-th invocation. -/
theorem afterFail_inl_attempts {α : Type} (cfg : LoopCfg) (env : Env α)
    (attempt : ℕ) (e : JsVal) (now2 : ℚ) (rIdx : ℕ)
    (res : RetryResult α) (evs : List Event)
    (h : afterFail cfg env attempt e now2 rIdx = Sum.inl (res, evs)) :
    ∀ n, terminalAttempts res = some n → n = attempt + 1 := by
  simp only [afterFail] at h
  split at h
  · simp only [Sum.inl.injEq, Prod.mk.injEq] at h
    rw [← h.1]
    intro n hn
    exact Option.noConfusion hn
  · split at h
    · simp only [Sum.inl.injEq, Prod.mk.injEq] at h
      rw [← h.1]
      intro n hn
      simpa [terminalAttempts] using hn.symm
    · split at h
      · simp only [Sum.inl.injEq, Prod.mk.injEq] at h
        rw [← h.1]
        intro n hn
        simpa [terminalAttempts] using hn.symm
      · split at h
        · simp only [Sum.inl.injEq, Prod.mk.injEq] at h
          rw [← h.1]
          intro n hn
          simpa [terminalAttempts] using hn.symm
        · split at h
          · simp only [Sum.inl.injEq, Prod.mk.injEq] at h
            rw [← h.1]
            intro n hn
            simpa [terminalAttempts] using hn.symm
          · exact Sum.noConfusion h

/-- When the classifier rejects (`retryOn` returns false), `afterFail`
terminates at once with the original error itself, unwrapped, having only
consulted the classifier. -/
theorem afterFail_rethrow {α : Type} (cfg : LoopCfg) (env : Env α)
    (attempt : ℕ) (e : JsVal) (now2 : ℚ) (rIdx : ℕ)
    (hv : cfg.retryOn e attempt = false) :
    afterFail cfg env attempt e now2 rIdx =
      Sum.inl (.rethrown e, [.policyCheck attempt false]) := by
  simp only [afterFail, hv, if_pos]

/-- With no timeout budget, a never-firing signal and a classifier verdict
to retry, `afterFail` always continues into the next loop iteration. -/
theorem afterFail_continue {α : Type} (cfg : LoopCfg) (env : Env α)
    (attempt : ℕ) (e : JsVal) (now2 : ℚ) (rIdx : ℕ)
    (hto : cfg.timeoutMs = none) (hsig : sigNeverAborts cfg.signal)
    (hv : cfg.retryOn e attempt = true) :
    ∃ evs nx ri, afterFail cfg env attempt e now2 rIdx =
      Sum.inr (evs, nx, ri) := by
  simp only [afterFail, hv, preTimeout_of_none cfg _ hto,
    sigAborted_of_never _ _ hsig, clampDelay_of_none cfg _ _ hto,
    abortDuring_of_never _ _ _ hsig, Bool.true_eq_false, if_false]
  exact ⟨_, _, _, rfl⟩

/-- Loop invariant for attempt metadata: entering the loop at `attempt`
with `attempt + left = maxRetries`, any terminal failure that carries
attempt metadata reports exactly `attempt` plus the number of operation
calls recorded from this point on. -/
theorem retryLoop_attempts {α : Type} (cfg : LoopCfg) (env : Env α) :
    ∀ (left attempt : ℕ) (lastErr : Option JsVal) (now : ℚ) (rIdx : ℕ)
      (res : RetryResult α) (tr : List Event),
      attempt + left = cfg.maxRetries →
      retryLoop cfg env left attempt lastErr now rIdx = (res, tr) →
      ∀ n, terminalAttempts res = some n → n = attempt + countCalls tr := by
  intro left
  induction left with
  | zero =>
    intro attempt lastErr now rIdx res tr hinv hE n hterm
    rw [retryLoop] at hE
    split at hE
    · simp only [Prod.mk.injEq] at hE
      obtain ⟨rfl, rfl⟩ := hE
      simp only [terminalAttempts, Option.some.injEq] at hterm
      simp [countCalls, callsOf, ← hterm]
    · split at hE
      · simp only [Prod.mk.injEq] at hE
        obtain ⟨rfl, rfl⟩ := hE
        simp only [terminalAttempts, Option.some.injEq] at hterm
        simp [countCalls, callsOf, ← hterm]
      · split at hE
        · simp only [Prod.mk.injEq] at hE
          obtain ⟨rfl, rfl⟩ := hE
          simp [terminalAttempts] at hterm
        · simp only [Prod.mk.injEq] at hE
          obtain ⟨rfl, rfl⟩ := hE
          simp only [terminalAttempts, Option.some.injEq] at hterm
          simp [countCalls, callsOf]
          omega
  | succ left' ih =>
    intro attempt lastErr now rIdx res tr hinv hE n hterm
    rw [retryLoop] at hE
    split at hE
    · simp only [Prod.mk.injEq] at hE
      obtain ⟨rfl, rfl⟩ := hE
      simp only [terminalAttempts, Option.some.injEq] at hterm
      simp [countCalls, callsOf, ← hterm]
    · split at hE
      · simp only [Prod.mk.injEq] at hE
        obtain ⟨rfl, rfl⟩ := hE
        simp only [terminalAttempts, Option.some.injEq] at hterm
        simp [countCalls, callsOf, ← hterm]
      · split at hE
        · simp only [Prod.mk.injEq] at hE
          obtain ⟨rfl, rfl⟩ := hE
          simp [terminalAttempts] at hterm
        · rename_i e henv
          rcases hAF : afterFail cfg env attempt e (now + env.durs attempt) rIdx
            with ⟨res0, evs0⟩ | ⟨evs0, nx, ri⟩
          · simp only [hAF, Prod.mk.injEq] at hE
            obtain ⟨rfl, rfl⟩ := hE
            have hcalls :=
              (afterFail_events cfg env attempt e _ rIdx evs0
                (Or.inl ⟨res0, hAF⟩)).1
            have hn := afterFail_inl_attempts cfg env attempt e _ rIdx
              res0 evs0 hAF n hterm
            simp only [countCalls, callsOf_cons_call, List.length_cons,
              hcalls]
            simp [hn]
          · simp only [hAF, Prod.mk.injEq] at hE
            obtain ⟨rfl, rfl⟩ := hE
            have hcalls :=
              (afterFail_events cfg env attempt e _ rIdx evs0
                (Or.inr ⟨nx, ri, hAF⟩)).1
            have hrec := ih (attempt + 1) (some e) nx ri
              (retryLoop cfg env left' (attempt + 1) (some e) nx ri).1
              (retryLoop cfg env left' (attempt + 1) (some e) nx ri).2
              (by omega) rfl n hterm
            simp only [countCalls, callsOf_cons_call, callsOf_append,
              List.length_cons, List.length_append, hcalls, List.length_nil]
            simp only [countCalls] at hrec
            omega

/-- Loop invariant for classifier consultations: every consultation
recorded from loop entry at `attempt` with `left` retries remaining
concerns an attempt index below `attempt + left`; in particular the final
permitted attempt is never consulted. -/
theorem retryLoop_policyCheck {α : Type} (cfg : LoopCfg) (env : Env α) :
    ∀ (left attempt : ℕ) (lastErr : Option JsVal) (now : ℚ) (rIdx : ℕ)
      (res : RetryResult α) (tr : List Event),
      retryLoop cfg env left attempt lastErr now rIdx = (res, tr) →
      ∀ i b, Event.policyCheck i b ∈ tr → attempt ≤ i ∧ i < attempt + left := by
  intro left
  induction left with
  | zero =>
    intro attempt lastErr now rIdx res tr hE i b hm
    rw [retryLoop] at hE
    split at hE
    · simp only [Prod.mk.injEq] at hE
      obtain ⟨rfl, rfl⟩ := hE
      simp at hm
    · split at hE
      · simp only [Prod.mk.injEq] at hE
        obtain ⟨rfl, rfl⟩ := hE
        simp at hm
      · split at hE
        · simp only [Prod.mk.injEq] at hE
          obtain ⟨rfl, rfl⟩ := hE
          simp at hm
        · simp only [Prod.mk.injEq] at hE
          obtain ⟨rfl, rfl⟩ := hE
          simp at hm
  | succ left' ih =>
    intro attempt lastErr now rIdx res tr hE i b hm
    rw [retryLoop] at hE
    split at hE
    · simp only [Prod.mk.injEq] at hE
      obtain ⟨rfl, rfl⟩ := hE
      simp at hm
    · split at hE
      · simp only [Prod.mk.injEq] at hE
        obtain ⟨rfl, rfl⟩ := hE
        simp at hm
      · split at hE
        · simp only [Prod.mk.injEq] at hE
          obtain ⟨rfl, rfl⟩ := hE
          simp at hm
        · rename_i e henv
          rcases hAF : afterFail cfg env attempt e (now + env.durs attempt) rIdx
            with ⟨res0, evs0⟩ | ⟨evs0, nx, ri⟩
          · simp only [hAF, Prod.mk.injEq] at hE
            obtain ⟨rfl, rfl⟩ := hE
            rcases List.mem_cons.mp hm with hh | hh
            · simp at hh
            · have := (afterFail_events cfg env attempt e _ rIdx evs0
                (Or.inl ⟨res0, hAF⟩)).2.1 i b hh
              omega
          · simp only [hAF, Prod.mk.injEq] at hE
            obtain ⟨rfl, rfl⟩ := hE
            rcases List.mem_cons.mp hm with hh | hh
            · simp at hh
            · rcases List.mem_append.mp hh with hh2 | hh2
              · have := (afterFail_events cfg env attempt e _ rIdx evs0
                  (Or.inr ⟨nx, ri, hAF⟩)).2.1 i b hh2
                omega
              · have := ih (attempt + 1) (some e) nx ri _ _ rfl i b hh2
                omega

/-- Loop invariant for sleeps under a timeout budget: every sleep recorded
by the loop was clamped to the remaining budget, which was still positive
when the sleep began. -/
theorem retryLoop_slept {α : Type} (cfg : LoopCfg) (env : Env α) (T : ℚ)
    (hT : cfg.timeoutMs = some T) :
    ∀ (left attempt : ℕ) (lastErr : Option JsVal) (now : ℚ) (rIdx : ℕ)
      (res : RetryResult α) (tr : List Event),
      retryLoop cfg env left attempt lastErr now rIdx = (res, tr) →
      ∀ t p f, Event.slept t p f ∈ tr →
        f = min p (T - (t - cfg.start)) ∧ 0 < T - (t - cfg.start) := by
  intro left
  induction left with
  | zero =>
    intro attempt lastErr now rIdx res tr hE t p f hm
    rw [retryLoop] at hE
    split at hE
    · simp only [Prod.mk.injEq] at hE
      obtain ⟨rfl, rfl⟩ := hE
      simp at hm
    · split at hE
      · simp only [Prod.mk.injEq] at hE
        obtain ⟨rfl, rfl⟩ := hE
        simp at hm
      · split at hE
        · simp only [Prod.mk.injEq] at hE
          obtain ⟨rfl, rfl⟩ := hE
          simp at hm
        · simp only [Prod.mk.injEq] at hE
          obtain ⟨rfl, rfl⟩ := hE
          simp at hm
  | succ left' ih =>
    intro attempt lastErr now rIdx res tr hE t p f hm
    rw [retryLoop] at hE
    split at hE
    · simp only [Prod.mk.injEq] at hE
      obtain ⟨rfl, rfl⟩ := hE
      simp at hm
    · split at hE
      · simp only [Prod.mk.injEq] at hE
        obtain ⟨rfl, rfl⟩ := hE
        simp at hm
      · split at hE
        · simp only [Prod.mk.injEq] at hE
          obtain ⟨rfl, rfl⟩ := hE
          simp at hm
        · rename_i e henv
          rcases hAF : afterFail cfg env attempt e (now + env.durs attempt) rIdx
            with ⟨res0, evs0⟩ | ⟨evs0, nx, ri⟩
          · simp only [hAF, Prod.mk.injEq] at hE
            obtain ⟨rfl, rfl⟩ := hE
            rcases List.mem_cons.mp hm with hh | hh
            · simp at hh
            · exact (afterFail_events cfg env attempt e _ rIdx evs0
                (Or.inl ⟨res0, hAF⟩)).2.2 T hT t p f hh
          · simp only [hAF, Prod.mk.injEq] at hE
            obtain ⟨rfl, rfl⟩ := hE
            rcases List.mem_cons.mp hm with hh | hh
            · simp at hh
            · rcases List.mem_append.mp hh with hh2 | hh2
              · exact (afterFail_events cfg env attempt e _ rIdx evs0
                  (Or.inr ⟨nx, ri, hAF⟩)).2.2 T hT t p f hh2
              · exact ih (attempt + 1) (some e) nx ri _ _ rfl t p f hh2

/-- With no timeout, a never-firing signal, an operation failing on every
remaining attempt and a classifier that accepts every non-final failure,
the loop runs all remaining attempts in order and exhausts. -/
theorem retryLoop_allFail {α : Type} (cfg : LoopCfg) (env : Env α)
    (err : ℕ → JsVal) (hto : cfg.timeoutMs = none)
    (hsig : sigNeverAborts cfg.signal) :
    ∀ (left attempt : ℕ) (lastErr : Option JsVal) (now : ℚ) (rIdx : ℕ),
      (∀ i, attempt ≤ i → i ≤ attempt + left → env.runs i = .error (err i)) →
      (∀ i, attempt ≤ i → i < attempt + left → cfg.retryOn (err i) i = true) →
      ∃ t, (retryLoop cfg env left attempt lastErr now rIdx).1
          = .exhausted (cfg.maxRetries + 1) t (some (err (attempt + left)))
        ∧ callsOf (retryLoop cfg env left attempt lastErr now rIdx).2
          = List.range' attempt (left + 1) := by
  intro left
  induction left with
  | zero =>
    intro attempt lastErr now rIdx hfail hret
    have h0 : env.runs attempt = .error (err attempt) :=
      hfail attempt (le_refl _) (by omega)
    rw [retryLoop]
    simp only [preTimeout_of_none cfg now hto,
      sigAborted_of_never cfg.signal now hsig, Bool.false_eq_true, if_false,
      h0]
    exact ⟨now + env.durs attempt - cfg.start, by simp,
      by simp [callsOf, List.range'_one]⟩
  | succ left' ih =>
    intro attempt lastErr now rIdx hfail hret
    have h0 : env.runs attempt = .error (err attempt) :=
      hfail attempt (le_refl _) (by omega)
    obtain ⟨evs, nx, ri, hAF⟩ := afterFail_continue cfg env attempt
      (err attempt) (now + env.durs attempt) rIdx hto hsig
      (hret attempt (le_refl _) (by omega))
    rw [retryLoop]
    simp only [preTimeout_of_none cfg now hto,
      sigAborted_of_never cfg.signal now hsig, Bool.false_eq_true, if_false,
      h0, hAF]
    obtain ⟨t, h1, h2⟩ := ih (attempt + 1) (some (err attempt)) nx ri
      (fun i hi1 hi2 => hfail i (by omega) (by omega))
      (fun i hi1 hi2 => hret i (by omega) (by omega))
    refine ⟨t, ?_, ?_⟩
    · rw [show attempt + (left' + 1) = attempt + 1 + left' by omega]
      exact h1
    · rw [callsOf_cons_call, callsOf_append,
        (afterFail_events cfg env attempt (err attempt) _ rIdx evs
          (Or.inr ⟨nx, ri, hAF⟩)).1, h2, List.range'_succ]
      simp [List.range'_succ]

/-! ## Claim C6: backoff formula -/

/-- C6: for every nonnegative integer attempt index, positive base and cap
at least the base (both finite doubles), `calculateBackoffDelay` equals
`min cap (base * 2 ^ attemptIndex)` whenever the product is a finite double,
and equals exactly `cap` when the exponential term or the product
overflows.  The function is a pure function of its arguments, so it is
deterministic with no side effects by construction. -/
theorem claim_C6_backoff_formula (i : ℕ) (base cap : ℚ)
    (hb : 0 < base) (hbc : base ≤ cap) (hcap : cap ≤ MAXV) :
    (i < 1024 → base * 2 ^ i ≤ MAXV →
      calculateBackoffDelay i base cap = min cap (base * 2 ^ i))
    ∧ (1024 ≤ i ∨ MAXV < base * 2 ^ i →
      calculateBackoffDelay i base cap = cap) := by
  have hcast : ((2 ^ i : ℕ) : ℚ) = (2 : ℚ) ^ i := by push_cast; ring
  constructor
  · intro h1 h2
    have hle : i ≤ 1023 := by omega
    simp only [calculateBackoffDelay, jsPow2, if_pos hle, jsMulPos, hcast,
      if_pos h2]
  · intro h
    rcases h with h | h
    · have hgt : ¬ i ≤ 1023 := by omega
      simp only [calculateBackoffDelay, jsPow2, if_neg hgt, jsMulPos]
    · by_cases hle : i ≤ 1023
      · simp only [calculateBackoffDelay, jsPow2, if_pos hle, jsMulPos, hcast,
          if_neg (not_le.mpr h)]
      · simp only [calculateBackoffDelay, jsPow2, if_neg hle, jsMulPos]

/-- Witness for C6 at attempt index 5, base 300, cap 5000 (the no-overflow
branch, where the clamp is active since `300 * 32 > 5000`). -/
theorem claim_C6_backoff_formula_witness :
    calculateBackoffDelay 5 300 5000 = min 5000 (300 * 2 ^ 5) :=
  (claim_C6_backoff_formula 5 300 5000 (by norm_num) (by norm_num)
    (by norm_num [MAXV, MAXVn])).1 (by norm_num) (by norm_num [MAXV, MAXVn])

/-! ## Claims C7 and C8: classifiers -/

/-- C7: the default retry policy returns true on errors with a string
`code` in the fixed network set (characterized exactly); otherwise, when a
status is extracted, it returns true for 429 and 500 through 599 and false
for the other 4xx statuses; it returns true when no status is found; and it
also returns true when a status is found that falls in none of the
recognized ranges (below 400 or above 599), so unknown failures are
treated as transient. -/
theorem claim_C7_defaultRetryPolicy :
    (∀ e, isNetworkError e = true → defaultRetryPolicy e = true)
    ∧ (∀ e, isNetworkError e = true ↔
        ∃ fs s, e = .vobj fs ∧ lookupField fs "code" = some (.vstr s) ∧
          s ∈ RETRYABLE_NETWORK_CODES)
    ∧ (∀ e s, isNetworkError e = false → extractHttpStatus e = some s →
        s = 429 ∨ (500 ≤ s ∧ s ≤ 599) → defaultRetryPolicy e = true)
    ∧ (∀ e s, isNetworkError e = false → extractHttpStatus e = some s →
        400 ≤ s → s ≤ 499 → s ≠ 429 → defaultRetryPolicy e = false)
    ∧ (∀ e, isNetworkError e = false → extractHttpStatus e = none →
        defaultRetryPolicy e = true)
    ∧ (∀ e s, isNetworkError e = false → extractHttpStatus e = some s →
        ¬ (400 ≤ s ∧ s ≤ 599) → defaultRetryPolicy e = true) := by
  refine ⟨?_, ?_, ?_, ?_, ?_, ?_⟩
  · intro e h
    simp [defaultRetryPolicy, h]
  · intro e
    constructor
    · intro h
      match e with
      | .vobj fs =>
        refine ⟨fs, ?_⟩
        simp only [isNetworkError] at h
        match hlk : lookupField fs "code" with
        | some (.vstr s) =>
          rw [hlk] at h
          exact ⟨s, rfl, rfl, by simpa using h⟩
        | some .vundef | some .vnull | some (.vbool _) | some (.vnum _)
        | some (.vobj _) | none =>
          rw [hlk] at h <;> simp at h
    · rintro ⟨fs, s, rfl, hlk, hmem⟩
      simp [isNetworkError, hlk, hmem]
  · intro e s hnet hst hcase
    rcases hcase with rfl | ⟨h5, h9⟩
    · simp [defaultRetryPolicy, hnet, hst]
    · have h429 : s ≠ 429 := by omega
      simp [defaultRetryPolicy, hnet, hst, h429, h5, h9]
  · intro e s hnet hst h4 h9 h429
    have hn5 : ¬ (500 ≤ s ∧ s ≤ 599) := by omega
    simp [defaultRetryPolicy, hnet, hst, h429, hn5, h4, h9]
  · intro e hnet hst
    simp [defaultRetryPolicy, hnet, hst]
  · intro e s hnet hst hout
    have h429 : s ≠ 429 := by omega
    have hn5 : ¬ (500 ≤ s ∧ s ≤ 599) := by omega
    have hn4 : ¬ (400 ≤ s ∧ s ≤ 499) := by omega
    simp [defaultRetryPolicy, hnet, hst, h429, hn5, hn4]

/-- Witness for C7 on four concrete errors: a connection-reset network
error, a 503 response error, a plain 404 error and a found-but-unclassified
302 status. -/
theorem claim_C7_defaultRetryPolicy_witness :
    defaultRetryPolicy (.vobj [("code", .vstr "ECONNRESET")]) = true
    ∧ defaultRetryPolicy (.vobj [("response", .vobj [("status", .vnum 503)])])
        = true
    ∧ defaultRetryPolicy (.vobj [("status", .vnum 404)]) = false
    ∧ defaultRetryPolicy (.vobj [("status", .vnum 302)]) = true :=
  ⟨claim_C7_defaultRetryPolicy.1 _ rfl,
    claim_C7_defaultRetryPolicy.2.2.1 _ 503 rfl rfl (Or.inr (by norm_num)),
    claim_C7_defaultRetryPolicy.2.2.2.1 _ 404 rfl rfl (by norm_num)
      (by norm_num) (by norm_num),
    claim_C7_defaultRetryPolicy.2.2.2.2.2 (.vobj [("status", .vnum 302)]) 302
      rfl (by with_unfolding_all rfl) (by norm_num)⟩

/-- C8: `isRetryableHttpError` returns true exactly when the extracted
status is 429 or lies in 500 through 599; it returns false for the other
4xx statuses and when no status is present; and extraction reads
`error.status` first, falling back to `error.response.status`. -/
theorem claim_C8_isRetryableHttpError :
    (∀ e s, extractHttpStatus e = some s →
      (isRetryableHttpError e = true ↔ (s = 429 ∨ (500 ≤ s ∧ s ≤ 599))))
    ∧ (∀ e, extractHttpStatus e = none → isRetryableHttpError e = false)
    ∧ (∀ e s, extractHttpStatus e = some s → 400 ≤ s → s ≤ 499 → s ≠ 429 →
        isRetryableHttpError e = false)
    ∧ (∀ fs q, lookupField fs "status" = some (.vnum q) → q.den = 1 →
        extractHttpStatus (.vobj fs) = some q.num)
    ∧ (∀ fs rfs, statusOfFields fs = none →
        lookupField fs "response" = some (.vobj rfs) →
        extractHttpStatus (.vobj fs) = statusOfFields rfs) := by
  refine ⟨?_, ?_, ?_, ?_, ?_⟩
  · intro e s hst
    constructor
    · intro h
      by_contra hc
      push_neg at hc
      have h429 : s ≠ 429 := hc.1
      have himp := hc.2
      have hn5 : ¬ (500 ≤ s ∧ s ≤ 599) := by
        intro hand
        exact absurd (himp hand.1) (not_lt.mpr hand.2)
      simp [isRetryableHttpError, hst, h429, hn5] at h
    · intro h
      rcases h with rfl | ⟨h5, h9⟩
      · simp [isRetryableHttpError, hst]
      · have h429 : s ≠ 429 := by omega
        simp [isRetryableHttpError, hst, h429, h5, h9]
  · intro e hst
    simp [isRetryableHttpError, hst]
  · intro e s hst h4 h9 h429
    have hn5 : ¬ (500 ≤ s ∧ s ≤ 599) := by omega
    simp [isRetryableHttpError, hst, h429, hn5]
  · intro fs q hlk hden
    simp [extractHttpStatus, statusOfFields, hlk, hden]
  · intro fs rfs hown hresp
    simp [extractHttpStatus, hown, hresp]

/-- Witness for C8: a 429 error is retryable, a 400 error is not, an error
without any status is not, and the fallback to `response.status` is taken
on a concrete object. -/
theorem claim_C8_isRetryableHttpError_witness :
    isRetryableHttpError (.vobj [("status", .vnum 429)]) = true
    ∧ isRetryableHttpError (.vobj [("status", .vnum 400)]) = false
    ∧ isRetryableHttpError (.vobj [("message", .vstr "x")]) = false
    ∧ extractHttpStatus
        (.vobj [("response", .vobj [("status", .vnum 500)])]) =
      statusOfFields [("status", .vnum 500)] :=
  ⟨(claim_C8_isRetryableHttpError.1 (.vobj [("status", .vnum 429)]) 429
      (by with_unfolding_all rfl)).2 (Or.inl rfl),
    claim_C8_isRetryableHttpError.2.2.1 (.vobj [("status", .vnum 400)]) 400
      (by with_unfolding_all rfl) (by norm_num) (by norm_num) (by norm_num),
    claim_C8_isRetryableHttpError.2.1 (.vobj [("message", .vstr "x")])
      (by with_unfolding_all rfl),
    claim_C8_isRetryableHttpError.2.2.2.2 _ _ (by with_unfolding_all rfl)
      (by with_unfolding_all rfl)⟩

/-! ## Claim C1: exhaustion after N + 1 failing attempts -/

/-- C1: with `maxRetries = N`, the default policy accepting every observed
error, no timeout budget and a never-firing signal, a wrapped operation
that fails on every invocation is invoked exactly `N + 1` times with
attempt indices `0` through `N` in order, and the run terminates with
`RetryExhaustedError` carrying `totalAttempts = N + 1` whose cause is the
final error. -/
theorem claim_C1_exhaustion {α : Type} (N : ℕ) (o : RetryOptions)
    (env : Env α) (err : ℕ → JsVal)
    (hN : o.maxRetries = some (N : ℤ))
    (hpol : o.retryOn = none)
    (hto : o.timeoutMs = none)
    (hsig : sigNeverAborts o.signal)
    (hval : validateOptions o = none)
    (hfail : ∀ i, i ≤ N → env.runs i = .error (err i))
    (hret : ∀ i, i < N → defaultRetryPolicy (err i) = true) :
    ∃ t, (smartRetry o env).1 = .exhausted (N + 1) t (some (err N))
      ∧ callsOf (smartRetry o env).2 = List.range (N + 1) := by
  have hsig2 : sigAborted o.signal env.start = false :=
    sigAborted_of_never _ _ hsig
  have heff : effMaxRetries o = N := effMaxRetries_some o N hN
  rw [smartRetry_loop o env hval hsig2]
  have hcto : (mkCfg o env.start).timeoutMs = none := by
    rw [mkCfg_timeoutMs, hto]
  have hcsig : sigNeverAborts (mkCfg o env.start).signal := by
    rw [mkCfg_signal]
    exact hsig
  have hpol2 : (mkCfg o env.start).retryOn = fun e _ => defaultRetryPolicy e := by
    rw [mkCfg_retryOn, hpol]
    rfl
  obtain ⟨t, h1, h2⟩ := retryLoop_allFail (mkCfg o env.start) env err hcto hcsig
    (effMaxRetries o) 0 none env.start 0
    (fun i hi1 hi2 => hfail i (by omega))
    (fun i hi1 hi2 => by
      rw [hpol2]
      exact hret i (by omega))
  refine ⟨t, ?_, ?_⟩
  · rw [h1, mkCfg_maxRetries, heff]
    norm_num
  · rw [h2, heff, List.range_eq_range']

/-- Witness for C1 at `N = 2` with a string error retried by the default
policy. -/
theorem claim_C1_exhaustion_witness :
    ∃ t, (smartRetry optsN2 envFailE).1
        = .exhausted (2 + 1) t (some (.vstr "e"))
      ∧ callsOf (smartRetry optsN2 envFailE).2 = List.range (2 + 1) :=
  claim_C1_exhaustion 2 optsN2 envFailE (fun _ => .vstr "e")
    rfl rfl rfl rfl (by with_unfolding_all rfl)
    (fun i _ => rfl) (fun i _ => rfl)

/-! ## Claim C2: policy rejection propagates the original error -/

/-- Counterexample to C2 as stated: in the configuration `maxRetries = 0`
with a `retryOn` that always returns false, the single failure happens on
the final permitted attempt, so the code wraps it in `RetryExhaustedError`
instead of rethrowing the original error, although the operation was
invoked exactly once. -/
theorem claim_C2_counterexample :
    (smartRetry optsRejectN0 envFailBoom).1
      = .exhausted 1 0 (some (.vstr "boom"))
    ∧ (smartRetry optsRejectN0 envFailBoom).1 ≠ .rethrown (.vstr "boom")
    ∧ countCalls (smartRetry optsRejectN0 envFailBoom).2 = 1 := by
  refine ⟨by with_unfolding_all rfl, ?_, by with_unfolding_all rfl⟩
  intro h
  rw [show (smartRetry optsRejectN0 envFailBoom).1
    = RetryResult.exhausted 1 0 (some (.vstr "boom"))
    from by with_unfolding_all rfl] at h
  exact RetryResult.noConfusion h

/-- C2 as amended: with a caller-supplied `retryOn` that always returns
false and an effective retry budget of at least 1 (so the first failure is
not the final permitted attempt), a validated invocation with a
never-firing signal and a first attempt that fails invokes the operation
exactly once and propagates the original error value itself, unwrapped and
without metadata. -/
theorem claim_C2_policy_rejection {α : Type} (o : RetryOptions) (env : Env α)
    (p : JsVal → ℕ → Bool) (e0 : JsVal)
    (hp : o.retryOn = some p)
    (hfalse : ∀ e i, p e i = false)
    (hval : validateOptions o = none)
    (hmr : 1 ≤ effMaxRetries o)
    (hsig : sigNeverAborts o.signal)
    (hrun : env.runs 0 = .error e0) :
    (smartRetry o env).1 = .rethrown e0
    ∧ callsOf (smartRetry o env).2 = [0] := by
  have hsig2 : sigAborted o.signal env.start = false :=
    sigAborted_of_never _ _ hsig
  rw [smartRetry_loop o env hval hsig2]
  obtain ⟨l, hl⟩ : ∃ l, effMaxRetries o = l + 1 :=
    ⟨effMaxRetries o - 1, by omega⟩
  have hv : (mkCfg o env.start).retryOn e0 0 = false := by
    rw [mkCfg_retryOn, hp]
    exact hfalse e0 0
  rw [hl, retryLoop]
  simp only [preTimeout_entry o env.start hval, mkCfg_signal, hsig2,
    Bool.false_eq_true, if_false, hrun,
    afterFail_rethrow (mkCfg o env.start) env 0 e0 (env.start + env.durs 0) 0
      hv]
  simp [callsOf]

/-- Witness for the amended C2 with the default retry budget of 3. -/
theorem claim_C2_policy_rejection_witness :
    (smartRetry optsReject envFailBoom).1 = .rethrown (.vstr "boom")
    ∧ callsOf (smartRetry optsReject envFailBoom).2 = [0] :=
  claim_C2_policy_rejection optsReject envFailBoom
    (fun _ _ => false) (.vstr "boom") rfl (fun _ _ => rfl)
    (by with_unfolding_all rfl) (by norm_num [effMaxRetries, optsReject, DEFAULTS])
    rfl rfl

/-! ## Claim C3: delays are clamped to the remaining timeout budget -/

/-- C3: whenever a timeout budget `T` is set, every sleep the orchestrator
begins was clamped to `min` of the computed (jittered) delay and the
remaining budget, begins strictly before the deadline, and never extends
past the deadline; and whenever the remaining budget after a failed
retryable attempt is already exhausted (at most 0), the invocation
terminates with a `TimeoutError` carrying `attempt + 1` attempts and the
failure as cause, with no sleep event recorded, instead of sleeping. -/
theorem claim_C3_timeout_clamp {α : Type} (o : RetryOptions) (env : Env α)
    (T : ℚ) (hT : o.timeoutMs = some T) :
    (∀ t p f, Event.slept t p f ∈ (smartRetry o env).2 →
      f = min p (T - (t - env.start))
      ∧ 0 < T - (t - env.start)
      ∧ t - env.start + f ≤ T)
    ∧ (∀ (cfg : LoopCfg) (env2 : Env α) (attempt : ℕ) (e : JsVal)
        (now2 : ℚ) (rIdx : ℕ),
        cfg.timeoutMs = some T →
        cfg.retryOn e attempt = true →
        sigAborted cfg.signal now2 = false →
        T - (now2 - cfg.start) ≤ 0 →
        afterFail cfg env2 attempt e now2 rIdx
          = Sum.inl (.timedOut (attempt + 1) (now2 - cfg.start) (some e),
              [.policyCheck attempt true])) := by
  constructor
  case right =>
    intro cfg env2 attempt e now2 rIdx hcT hret hsg hrem
    have hle : T ≤ now2 - cfg.start := by linarith
    have hpt : preTimeout cfg now2 = true := by
      unfold preTimeout
      rw [hcT]
      exact decide_eq_true hle
    simp [afterFail, hret, hpt]
  case left =>
  intro t p f hm
  cases hval : validateOptions o with
  | some c =>
    have hX : smartRetry o env = (.configError c, []) := by
      unfold smartRetry
      simp only [hval]
    rw [hX] at hm
    simp at hm
  | none =>
    cases hs : sigAborted o.signal env.start with
    | true =>
      have hX : smartRetry o env = (.aborted 0 0 (sigReason o.signal), []) := by
        unfold smartRetry
        simp [hval, hs]
      rw [hX] at hm
      simp at hm
    | false =>
      rw [smartRetry_loop o env hval hs] at hm
      have h := retryLoop_slept (mkCfg o env.start) env T
        (by rw [mkCfg_timeoutMs, hT]) (effMaxRetries o) 0 none env.start 0
        _ _ rfl t p f hm
      rw [mkCfg_start] at h
      refine ⟨h.1, h.2, ?_⟩
      have hle : f ≤ T - (t - env.start) := by
        rw [h.1]
        exact min_le_right _ _
      linarith

/-- Witness for C3: a concrete run with `timeoutMs = 1000` whose single
sleep of 300 ms starts at instant 0, and a concrete exhausted-budget state
(instant 2000, deadline 1000) that terminates with `TimeoutError` without
any sleep. -/
theorem claim_C3_timeout_clamp_witness :
    ((300 : ℚ) = min 300 (1000 - ((0 : ℚ) - 0))
      ∧ (0 : ℚ) < 1000 - ((0 : ℚ) - 0)
      ∧ ((0 : ℚ) - 0) + 300 ≤ 1000)
    ∧ afterFail (mkCfg optsTimeout1000 0) envFailE 0 (.vstr "e") 2000 0
      = Sum.inl (.timedOut 1 ((2000 : ℚ) - 0) (some (.vstr "e")),
          [.policyCheck 0 true]) := by
  constructor
  · refine (claim_C3_timeout_clamp optsTimeout1000 envFailE 1000 rfl).1
      0 300 300 ?_
    rw [show (smartRetry optsTimeout1000 envFailE).2
      = [.call 0, .policyCheck 0 true, .delayComputed 0 300, .slept 0 300 300,
          .call 1]
      from by with_unfolding_all rfl]
    simp
  · exact (claim_C3_timeout_clamp optsTimeout1000 envFailE 1000 rfl).2
      (mkCfg optsTimeout1000 0) envFailE 0 (.vstr "e") 2000 0 rfl rfl rfl
      (by rw [mkCfg_start]; norm_num)

/-! ## Claim C4: the final attempt never consults the classifier -/

/-- C4: the retryability classifier is only consulted for failures of
non-final attempts; a failure of the final permitted attempt exits the
loop directly into `RetryExhaustedError`; and with `maxRetries = 0` a
failing operation is invoked exactly once and yields `ExhaustionFailure`
with `totalAttempts = 1`, with no classifier consultation and no delay
computation (the trace is exactly one call event). -/
theorem claim_C4_final_attempt {α : Type} (o : RetryOptions) (env : Env α) :
    (∀ i b, Event.policyCheck i b ∈ (smartRetry o env).2 →
      i < effMaxRetries o)
    ∧ (∀ (cfg : LoopCfg) (env2 : Env α) (attempt : ℕ)
        (lastErr : Option JsVal) (now : ℚ) (rIdx : ℕ) (e : JsVal),
        preTimeout cfg now = false → sigAborted cfg.signal now = false →
        env2.runs attempt = .error e →
        retryLoop cfg env2 0 attempt lastErr now rIdx
          = (.exhausted (cfg.maxRetries + 1)
              (now + env2.durs attempt - cfg.start) (some e),
            [.call attempt]))
    ∧ (∀ e : JsVal, o.maxRetries = some 0 → validateOptions o = none →
        sigAborted o.signal env.start = false → env.runs 0 = .error e →
        ∃ t, smartRetry o env = (.exhausted 1 t (some e), [.call 0])) := by
  refine ⟨?_, ?_, ?_⟩
  · intro i b hm
    cases hval : validateOptions o with
    | some c =>
      have hX : smartRetry o env = (.configError c, []) := by
        unfold smartRetry
        simp only [hval]
      rw [hX] at hm
      simp at hm
    | none =>
      cases hs : sigAborted o.signal env.start with
      | true =>
        have hX : smartRetry o env = (.aborted 0 0 (sigReason o.signal), []) := by
          unfold smartRetry
          simp [hval, hs]
        rw [hX] at hm
        simp at hm
      | false =>
        rw [smartRetry_loop o env hval hs] at hm
        have h := retryLoop_policyCheck (mkCfg o env.start) env
          (effMaxRetries o) 0 none env.start 0 _ _ rfl i b hm
        omega
  · intro cfg env2 attempt lastErr now rIdx e hpt hsa hrun
    rw [retryLoop]
    simp only [hpt, hsa, Bool.false_eq_true, if_false, hrun]
  · intro e h0 hval hs hrun
    have heff : effMaxRetries o = 0 := by
      rw [effMaxRetries, h0]
      rfl
    rw [smartRetry_loop o env hval hs, heff, retryLoop]
    simp only [preTimeout_entry o env.start hval, mkCfg_signal, hs,
      Bool.false_eq_true, if_false, hrun]
    refine ⟨env.start + env.durs 0 - (mkCfg o env.start).start, ?_⟩
    rw [mkCfg_maxRetries, heff]

/-- Witness for C4: the `maxRetries = 0` scenario on a concrete failing
operation. -/
theorem claim_C4_final_attempt_witness :
    ∃ t, smartRetry optsN0 envFailX = (.exhausted 1 t (some (.vstr "x")), [.call 0]) :=
  (claim_C4_final_attempt optsN0 envFailX).2.2 (.vstr "x") rfl
    (by with_unfolding_all rfl) rfl rfl

/-! ## Claim C5: totalAttempts counts actual invocations -/

/-- C5: every wrapped terminal failure (timeout, abort, exhaustion, on any
exit path) reports in `totalAttempts` exactly the number of times the
wrapped operation was invoked in that run; in particular a signal already
aborted at entry produces an abort failure with zero attempts, zero
elapsed time and the signal reason, before any invocation. -/
theorem claim_C5_metadata {α : Type} (o : RetryOptions) (env : Env α) :
    (∀ n, terminalAttempts (smartRetry o env).1 = some n →
      n = countCalls (smartRetry o env).2)
    ∧ (validateOptions o = none → sigAborted o.signal env.start = true →
      smartRetry o env = (.aborted 0 0 (sigReason o.signal), [])) := by
  constructor
  · intro n hterm
    cases hval : validateOptions o with
    | some c =>
      have hX : smartRetry o env = (.configError c, []) := by
        unfold smartRetry
        simp only [hval]
      rw [hX] at hterm
      simp [terminalAttempts] at hterm
    | none =>
      cases hs : sigAborted o.signal env.start with
      | true =>
        have hX : smartRetry o env = (.aborted 0 0 (sigReason o.signal), []) := by
          unfold smartRetry
          simp [hval, hs]
        rw [hX] at hterm ⊢
        simp only [terminalAttempts, Option.some.injEq] at hterm
        simp [countCalls, callsOf, ← hterm]
      | false =>
        rw [smartRetry_loop o env hval hs] at hterm ⊢
        have h := retryLoop_attempts (mkCfg o env.start) env (effMaxRetries o) 0
          none env.start 0 _ _ (by rw [mkCfg_maxRetries]; omega) rfl n hterm
        omega
  · intro hval hs
    unfold smartRetry
    simp [hval, hs]

/-- Witness for C5 on a concrete exhausted run with one invocation. -/
theorem claim_C5_metadata_witness :
    (1 : ℕ) = countCalls (smartRetry optsN0 envFailX).2 :=
  (claim_C5_metadata optsN0 envFailX).1 1 (by with_unfolding_all rfl)

/-! ## Claim C9: synchronous validation of the four constraints -/

/-- C9: validation fails exactly on the four documented violations; a
validation failure makes `smartRetry` return the configuration error with
an empty trace, so the operation is never invoked and nothing is awaited;
and each isolated violation reports its own distinct error condition. -/
theorem claim_C9_validation {α : Type} (o : RetryOptions) (env : Env α) :
    ((∃ c, validateOptions o = some c) ↔ violatesOpts o)
    ∧ (∀ c, validateOptions o = some c →
        smartRetry o env = (.configError c, []))
    ∧ (∀ m, o.maxRetries = some m → m < 0 →
        validateOptions o = some .negMaxRetries)
    ∧ ((∀ m, o.maxRetries = some m → 0 ≤ m) →
        ∀ b, o.baseDelayMs = some b → b ≤ 0 →
        validateOptions o = some .nonPosBaseDelay)
    ∧ ((∀ m, o.maxRetries = some m → 0 ≤ m) →
        (∀ b, o.baseDelayMs = some b → 0 < b) →
        ∀ M, o.maxDelayMs = some M → M < o.baseDelayMs.getD 300 →
        validateOptions o = some .maxBelowBase)
    ∧ ((∀ m, o.maxRetries = some m → 0 ≤ m) →
        (∀ b, o.baseDelayMs = some b → 0 < b) →
        (∀ M, o.maxDelayMs = some M → o.baseDelayMs.getD 300 ≤ M) →
        ∀ T, o.timeoutMs = some T → T ≤ 0 →
        validateOptions o = some .nonPosTimeout) := by
  have hno1 : (∀ m, o.maxRetries = some m → 0 ≤ m) →
      ¬ ((o.maxRetries.any fun m => decide (m < 0)) = true) := by
    intro hmr h
    obtain ⟨m, hm, hlt⟩ := (optAny_true_iff _ _).mp h
    exact absurd (hmr m hm) (not_le.mpr hlt)
  have hno2 : (∀ b, o.baseDelayMs = some b → 0 < b) →
      ¬ ((o.baseDelayMs.any fun b => decide (b ≤ 0)) = true) := by
    intro hb h
    obtain ⟨b, hbb, hle⟩ := (optAny_true_iff _ _).mp h
    exact absurd (hb b hbb) (not_lt.mpr hle)
  have hno3 : (∀ M, o.maxDelayMs = some M → o.baseDelayMs.getD 300 ≤ M) →
      ¬ ((o.maxDelayMs.any fun M => decide (M < o.baseDelayMs.getD 300))
        = true) := by
    intro hM h
    obtain ⟨M, hMM, hlt⟩ := (optAny_true_iff _ _).mp h
    exact absurd (hM M hMM) (not_le.mpr hlt)
  refine ⟨⟨?_, ?_⟩, ?_, ?_, ?_, ?_, ?_⟩
  · rintro ⟨c, hc⟩
    unfold validateOptions at hc
    split_ifs at hc with h1 h2 h3 h4
    · exact Or.inl ((optAny_true_iff _ _).mp h1)
    · exact Or.inr (Or.inl ((optAny_true_iff _ _).mp h2))
    · exact Or.inr (Or.inr (Or.inl ((optAny_true_iff _ _).mp h3)))
    · exact Or.inr (Or.inr (Or.inr ((optAny_true_iff _ _).mp h4)))
  · intro hv
    cases hval : validateOptions o with
    | some c => exact ⟨c, rfl⟩
    | none =>
      exfalso
      unfold validateOptions at hval
      split_ifs at hval with h1 h2 h3 h4
      rcases hv with ⟨m, hm, hlt⟩ | ⟨b, hb, hle⟩ | ⟨M, hM, hlt⟩ | ⟨T, hT, hle⟩
      · exact h1 ((optAny_true_iff (fun m : ℤ => m < 0)
          o.maxRetries).mpr ⟨m, hm, hlt⟩)
      · exact h2 ((optAny_true_iff (fun b : ℚ => b ≤ 0)
          o.baseDelayMs).mpr ⟨b, hb, hle⟩)
      · exact h3 ((optAny_true_iff (fun M : ℚ => M < o.baseDelayMs.getD 300)
          o.maxDelayMs).mpr ⟨M, hM, hlt⟩)
      · exact h4 ((optAny_true_iff (fun T : ℚ => T ≤ 0)
          o.timeoutMs).mpr ⟨T, hT, hle⟩)
  · intro c hc
    unfold smartRetry
    simp only [hc]
  · intro m hm hlt
    unfold validateOptions
    rw [if_pos ((optAny_true_iff (fun m : ℤ => m < 0)
      o.maxRetries).mpr ⟨m, hm, hlt⟩)]
  · intro hmr b hb hle
    unfold validateOptions
    rw [if_neg (hno1 hmr), if_pos ((optAny_true_iff (fun b : ℚ => b ≤ 0)
      o.baseDelayMs).mpr ⟨b, hb, hle⟩)]
  · intro hmr hbp M hM hlt
    unfold validateOptions
    rw [if_neg (hno1 hmr), if_neg (hno2 hbp),
      if_pos ((optAny_true_iff (fun M : ℚ => M < o.baseDelayMs.getD 300)
        o.maxDelayMs).mpr ⟨M, hM, hlt⟩)]
  · intro hmr hbp hMd T hT hle
    unfold validateOptions
    rw [if_neg (hno1 hmr), if_neg (hno2 hbp), if_neg (hno3 hMd),
      if_pos ((optAny_true_iff (fun T : ℚ => T ≤ 0)
        o.timeoutMs).mpr ⟨T, hT, hle⟩)]

/-- Witness for C9: `maxRetries = -1` is a violation and makes
`smartRetry` fail with the distinct negative-maxRetries condition, an
empty trace and no invocation. -/
theorem claim_C9_validation_witness :
    violatesOpts optsNegRetries
    ∧ smartRetry optsNegRetries envFailE
      = (.configError .negMaxRetries, []) :=
  ⟨(claim_C9_validation optsNegRetries envFailE).1.mp ⟨.negMaxRetries, rfl⟩,
    (claim_C9_validation optsNegRetries envFailE).2.1 .negMaxRetries rfl⟩

/-! ## Claim C10: maxDelayMs is validated against the default base delay -/

/-- C10: when `baseDelayMs` is omitted, a supplied `maxDelayMs` below the
default base delay of 300 is rejected at validation with the
maxDelayMs-below-baseDelayMs condition (given that `maxRetries` does not
trip the earlier check), and `smartRetry` fails before any attempt. -/
theorem claim_C10_default_base_validation {α : Type} (o : RetryOptions)
    (env : Env α) (M : ℚ)
    (hb : o.baseDelayMs = none)
    (hm : o.maxDelayMs = some M)
    (hM : M < 300)
    (hmr : ∀ m, o.maxRetries = some m → 0 ≤ m) :
    validateOptions o = some .maxBelowBase
    ∧ smartRetry o env = (.configError .maxBelowBase, []) := by
  have hval : validateOptions o = some .maxBelowBase := by
    unfold validateOptions
    have hn1 : ¬ ((o.maxRetries.any fun m => decide (m < 0)) = true) := by
      intro h
      obtain ⟨m, hmm, hlt⟩ := (optAny_true_iff _ _).mp h
      exact absurd (hmr m hmm) (not_le.mpr hlt)
    have hn2 : ¬ ((o.baseDelayMs.any fun b => decide (b ≤ 0)) = true) := by
      rw [hb]
      simp [Option.any]
    rw [if_neg hn1, if_neg hn2,
      if_pos ((optAny_true_iff (fun M : ℚ => M < o.baseDelayMs.getD 300)
        o.maxDelayMs).mpr ⟨M, hm, by rw [hb]; exact hM⟩)]
  refine ⟨hval, ?_⟩
  unfold smartRetry
  simp only [hval]

/-- Witness for C10: `maxDelayMs = 100` alone is rejected with the
maxDelayMs-below-baseDelayMs condition. -/
theorem claim_C10_default_base_validation_witness :
    validateOptions optsSmallMaxDelay = some .maxBelowBase
    ∧ smartRetry optsSmallMaxDelay envFailE
      = (.configError .maxBelowBase, []) :=
  claim_C10_default_base_validation optsSmallMaxDelay envFailE 100 rfl rfl
    (by norm_num) (fun m h => Option.noConfusion h)

end SmartRetry
